import Mathlib

/-!
Verification development for the LS-8 emulator in `src/ls8/cpu.py`.

The embedding mirrors the Python source.  Python integers are unbounded, so
every machine value is modelled as `Int`; the 256-cell `ram` list and the
8-cell `reg` list are modelled as total functions `Int → Int` (Python list
indexing raises, and wraps negative indices, outside `0..len-1`; every theorem
below either works at concrete in-range addresses or carries hypotheses that
keep all accessed addresses inside the list bounds, where the function model
and the Python list agree).  `print` output of `PRN` is modelled as the list
of printed register values; the `Unknown instruction` diagnostic printed by
the run loop is carried in the loop outcome.  CPython interns all small
integers produced by the arithmetic appearing here, so the source's
`sets_pc is not 1` and `ir is not 0` tests behave as `≠ 1` / `≠ 0` and are
modelled as such.
-/

namespace LS8

/-- Opcode constants, cpu.py lines 6-18. -/
def HLT : Int := 1

def LDI : Int := 0b10000010

def PRN : Int := 0b01000111

def MUL : Int := 0b10100010

def POP : Int := 0b01000110

def PUSH : Int := 0b01000101

def RET : Int := 0b00010001

def CALL : Int := 0b01010000

def ADD : Int := 0b10100000

def CMP : Int := 0b10100111

def JEQ : Int := 0b01010101

def JNE : Int := 0b01010110

def JMP : Int := 0b01010100

/-- `SP = 7`, index of the stack pointer in the register file (cpu.py line 20). -/
def SP : Int := 7

/-- Machine state of the `CPU` class (cpu.py lines 25-32): `ram`, `pc`, `fl`,
`running`, `reg`, plus `output`, the list of values printed by `PRN` so far
(modelling the standard-output stream). -/
structure CPU where
  ram : Int → Int
  pc : Int
  fl : Int
  running : Bool
  reg : Int → Int
  output : List Int

/-- Point update of a total map: the effect of a Python list element
assignment `xs[i] = v` on the map view of the list. -/
def upd (f : Int → Int) (i v : Int) : Int → Int :=
  fun j => if j = i then v else f j

/-- The state built by `CPU.__init__` (cpu.py lines 25-32): zeroed ram, `pc = 0`,
`fl = 0`, `running = True`, zeroed registers except `reg[SP] = 0xF4`. -/
def initCPU : CPU :=
  { ram := fun _ => 0
    pc := 0
    fl := 0
    running := true
    reg := upd (fun _ => 0) SP 0xF4
    output := [] }

/-- `handle_jmp` (cpu.py lines 48-49): `self.pc = self.reg[a]`. -/
def handle_jmp (s : CPU) (a : Int) : CPU :=
  { s with pc := s.reg a }

/-- `handle_jne` (cpu.py lines 51-56): jump when `self.fl & 0b001 == 0`,
otherwise `self.pc += 2`. -/
def handle_jne (s : CPU) (a : Int) : CPU :=
  if Int.land s.fl 0b001 = 0 then { s with pc := s.reg a }
  else { s with pc := s.pc + 2 }

/-- `handle_jeq` (cpu.py lines 58-62): jump when `self.fl == 0b001`,
otherwise `self.pc += 2`. -/
def handle_jeq (s : CPU) (a : Int) : CPU :=
  if s.fl = 0b001 then { s with pc := s.reg a }
  else { s with pc := s.pc + 2 }

/-- `handle_cmp` (cpu.py lines 64-72). -/
def handle_cmp (s : CPU) (a b : Int) : CPU :=
  if s.reg a < s.reg b then { s with fl := 0b100 }
  else if s.reg a > s.reg b then { s with fl := 0b010 }
  else { s with fl := 0b001 }

/-- `handle_call` (cpu.py lines 75-84): push `pc + 2`, then `self.pc = self.reg[a]`
(note: `self.reg[a]` is read after `self.reg[SP]` was decremented). -/
def handle_call (s : CPU) (a : Int) : CPU :=
  let return_addr := s.pc + 2
  let reg1 := upd s.reg SP (s.reg SP - 1)
  { s with reg := reg1, ram := upd s.ram (reg1 SP) return_addr, pc := reg1 a }

/-- `handle_ret` (cpu.py lines 87-89): `self.pc = self.ram[self.reg[SP]]`,
then `self.reg[SP] += 1`. -/
def handle_ret (s : CPU) : CPU :=
  { s with pc := s.ram (s.reg SP), reg := upd s.reg SP (s.reg SP + 1) }

/-- `handle_hlt` (cpu.py lines 91-92): `self.running = False`. -/
def handle_hlt (s : CPU) : CPU :=
  { s with running := false }

/-- `handle_ldi` (cpu.py lines 95-96): `self.reg[a] = b`. -/
def handle_ldi (s : CPU) (a b : Int) : CPU :=
  { s with reg := upd s.reg a b }

/-- `handle_prn` (cpu.py lines 99-100): `print(self.reg[a])`. -/
def handle_prn (s : CPU) (a : Int) : CPU :=
  { s with output := s.output ++ [s.reg a] }

/-- `handle_mul` (cpu.py lines 103-104): `self.reg[a] = self.reg[a] * self.reg[b]`
(no truncation appears in the source). -/
def handle_mul (s : CPU) (a b : Int) : CPU :=
  { s with reg := upd s.reg a (s.reg a * s.reg b) }

/-- `handle_add` (cpu.py lines 107-108): `self.reg[a] = self.reg[a] + self.reg[b]`
(no truncation appears in the source). -/
def handle_add (s : CPU) (a b : Int) : CPU :=
  { s with reg := upd s.reg a (s.reg a + s.reg b) }

/-- `handle_push` (cpu.py lines 110-112): `self.reg[SP] -= 1`, then
`self.ram[self.reg[SP]] = self.reg[a]` (the value is read after the decrement). -/
def handle_push (s : CPU) (a : Int) : CPU :=
  let reg1 := upd s.reg SP (s.reg SP - 1)
  { s with reg := reg1, ram := upd s.ram (reg1 SP) (reg1 a) }

/-- `handle_pop` (cpu.py lines 115-117): `self.reg[a] = self.ram[self.reg[SP]]`,
then `self.reg[SP] += 1`. -/
def handle_pop (s : CPU) (a : Int) : CPU :=
  let reg1 := upd s.reg a (s.ram (s.reg SP))
  { s with reg := upd reg1 SP (reg1 SP + 1) }

/-- `CPU.load` inner loop (cpu.py lines 145-147): copy the parsed program into
ram starting at a given address, one cell per byte. -/
def loadFrom : List Int → Int → (Int → Int) → (Int → Int)
  | [], _, ram => ram
  | v :: rest, address, ram => loadFrom rest (address + 1) (upd ram address v)

/-- `CPU.load` (cpu.py lines 121-147) restricted to the in-scope part: the
text-file parsing is the external loader; the core receives the parsed byte
sequence and copies it into ram starting at address 0. -/
def load (program : List Int) (s : CPU) : CPU :=
  { s with ram := loadFrom program 0 s.ram }

/-- A handler stored in `self.branchtable`: a bound method taking 0, 1 or 2
operand arguments. -/
inductive Handler where
  | h0 : (CPU → CPU) → Handler
  | h1 : (CPU → Int → CPU) → Handler
  | h2 : (CPU → Int → Int → CPU) → Handler

/-- `self.branchtable` (cpu.py lines 33-46): the dispatch dictionary built
once in `__init__`, in insertion order. -/
def branchtable (ir : Int) : Option Handler :=
  if ir = HLT then some (Handler.h0 handle_hlt)
  else if ir = LDI then some (Handler.h2 handle_ldi)
  else if ir = PRN then some (Handler.h1 handle_prn)
  else if ir = MUL then some (Handler.h2 handle_mul)
  else if ir = PUSH then some (Handler.h1 handle_push)
  else if ir = POP then some (Handler.h1 handle_pop)
  else if ir = RET then some (Handler.h0 handle_ret)
  else if ir = CALL then some (Handler.h1 handle_call)
  else if ir = ADD then some (Handler.h2 handle_add)
  else if ir = CMP then some (Handler.h2 handle_cmp)
  else if ir = JEQ then some (Handler.h1 handle_jeq)
  else if ir = JNE then some (Handler.h1 handle_jne)
  else if ir = JMP then some (Handler.h1 handle_jmp)
  else none

/-- The key set of `self.branchtable` (what `ir in self.branchtable` tests). -/
def branchtableKeys : List Int :=
  [HLT, LDI, PRN, MUL, PUSH, POP, RET, CALL, ADD, CMP, JEQ, JNE, JMP]

/-- The arity-dispatch chain of the run loop (cpu.py lines 201-206):
`elif num_operands == 0 / 1 / 2` calls the handler with that many operands;
`none` models the `TypeError` Python would raise if the stored method's arity
did not match; when `num_operands` matches none of the three branches no
handler is called and the state is unchanged. -/
def callHandler (h : Handler) (num_operands : Int) (s : CPU) (a b : Int) :
    Option CPU :=
  if num_operands = 0 then
    match h with
    | Handler.h0 f => some (f s)
    | _ => none
  else if num_operands = 1 then
    match h with
    | Handler.h1 f => some (f s a)
    | _ => none
  else if num_operands = 2 then
    match h with
    | Handler.h2 f => some (f s a b)
    | _ => none
  else some s

/-- Outcome of one iteration of the `while self.running` body
(cpu.py lines 189-213):
`ok` continues the loop; `exit1` is `sys.exit(1)` with the optional
`Unknown instruction` diagnostic printed just before it; `attrError` is the
`self.ALU` attribute lookup on line 200 (the class defines `alu`, not `ALU`,
so reaching that branch would raise `AttributeError`); `typeErr` is an
arity-mismatched handler call. -/
inductive StepResult where
  | ok : CPU → StepResult
  | exit1 : Option Int → CPU → StepResult
  | attrError : CPU → StepResult
  | typeErr : CPU → StepResult

/-- One iteration of the run loop body (cpu.py lines 190-213): fetch `ir` and
the two following cells, decode `num_operands = ir >> 6`,
`sets_pc = (ir & 0b00010000) >> 4`, `uses_alu = (ir & 0b00100000) >> 4`,
dispatch through `branchtable`, then advance `pc` by `1 + num_operands`
unless `sets_pc` is 1. -/
def step (s : CPU) : StepResult :=
  let ir := s.ram s.pc
  let num_operands := ir >>> 6
  let sets_pc := Int.land ir 0b00010000 >>> 4
  let uses_alu := Int.land ir 0b00100000 >>> 4
  let operand_a := s.ram (s.pc + 1)
  let operand_b := s.ram (s.pc + 2)
  match branchtable ir with
  | some h =>
    if uses_alu = 1 then StepResult.attrError s
    else
      match callHandler h num_operands s operand_a operand_b with
      | some s1 =>
        if sets_pc ≠ 1 then StepResult.ok { s1 with pc := s1.pc + (1 + num_operands) }
        else StepResult.ok s1
      | none => StepResult.typeErr s
  | none => StepResult.exit1 (if ir ≠ 0 then some ir else none) s

/-- Outcome of `CPU.run` (cpu.py lines 187-213): `halted` means the
`while self.running` condition became false (normal return, process exits
with success); `fault` is `sys.exit(1)` carrying the optional diagnostic;
`crashed` is an uncaught Python exception; `fuelOut` only marks exhaustion of
the step budget of this embedding. -/
inductive RunOutcome where
  | halted : CPU → RunOutcome
  | fault : Option Int → CPU → RunOutcome
  | crashed : CPU → RunOutcome
  | fuelOut : CPU → RunOutcome

/-- `CPU.run` (cpu.py lines 187-213), with an explicit step budget: while
`running` is true, perform one loop body iteration. -/
def run : Nat → CPU → RunOutcome
  | 0, s => RunOutcome.fuelOut s
  | n + 1, s =>
    if s.running then
      match step s with
      | StepResult.ok s1 => run n s1
      | StepResult.exit1 d s1 => RunOutcome.fault d s1
      | StepResult.attrError s1 => RunOutcome.crashed s1
      | StepResult.typeErr s1 => RunOutcome.crashed s1
    else RunOutcome.halted s

/-- `CPU.alu` (cpu.py lines 149-155): dispatch `op` through the branchtable
with two register arguments, raising (`none`) for an unknown op.  The run
loop references the attribute `ALU`, not `alu`, so this method is never
invoked by `run`; it is embedded for completeness. -/
def alu (s : CPU) (op reg_a reg_b : Int) : Option CPU :=
  match branchtable op with
  | some h => callHandler h 2 s reg_a reg_b
  | none => none

/-- The machine state carried by a run outcome. -/
def stateOf : RunOutcome → CPU
  | RunOutcome.halted s => s
  | RunOutcome.fault _ s => s
  | RunOutcome.crashed s => s
  | RunOutcome.fuelOut s => s

/-- The `PRN` output stream carried by a run outcome. -/
def outputOf (r : RunOutcome) : List Int :=
  (stateOf r).output

/-- Whether a run outcome is a normal (`while` condition false) termination. -/
def isHalted : RunOutcome → Bool
  | RunOutcome.halted _ => true
  | _ => false

/-- Process exit status abstraction: `halted` returns from `run` and the
process ends with success; `sys.exit(1)` and uncaught exceptions are
non-success; a `fuelOut` artifact is not a successful exit. -/
def exitSuccess : RunOutcome → Bool
  | RunOutcome.halted _ => true
  | _ => false

/-- The machine state of a successful loop iteration, `none` otherwise. -/
def okState : StepResult → Option CPU
  | StepResult.ok s => some s
  | _ => none

/-- Two consecutive loop iterations, both of which must continue normally. -/
def step2 (s : CPU) : Option CPU :=
  (okState (step s)).bind (fun t => okState (step t))

namespace Decode

/-- Decoded fields `ir >> 6`, `(ir & 0b00010000) >> 4`, `(ir & 0b00100000) >> 4`
for every opcode byte of the instruction set. -/
theorem vals :
    ((1 : Int) >>> (6 : Int) = 0 ∧ Int.land 1 16 >>> (4 : Int) = 0 ∧ Int.land 1 32 >>> (4 : Int) = 0)
    ∧ ((130 : Int) >>> (6 : Int) = 2 ∧ Int.land 130 16 >>> (4 : Int) = 0 ∧ Int.land 130 32 >>> (4 : Int) = 0)
    ∧ ((71 : Int) >>> (6 : Int) = 1 ∧ Int.land 71 16 >>> (4 : Int) = 0 ∧ Int.land 71 32 >>> (4 : Int) = 0)
    ∧ ((162 : Int) >>> (6 : Int) = 2 ∧ Int.land 162 16 >>> (4 : Int) = 0 ∧ Int.land 162 32 >>> (4 : Int) = 2)
    ∧ ((69 : Int) >>> (6 : Int) = 1 ∧ Int.land 69 16 >>> (4 : Int) = 0 ∧ Int.land 69 32 >>> (4 : Int) = 0)
    ∧ ((70 : Int) >>> (6 : Int) = 1 ∧ Int.land 70 16 >>> (4 : Int) = 0 ∧ Int.land 70 32 >>> (4 : Int) = 0)
    ∧ ((17 : Int) >>> (6 : Int) = 0 ∧ Int.land 17 16 >>> (4 : Int) = 1 ∧ Int.land 17 32 >>> (4 : Int) = 0)
    ∧ ((80 : Int) >>> (6 : Int) = 1 ∧ Int.land 80 16 >>> (4 : Int) = 1 ∧ Int.land 80 32 >>> (4 : Int) = 0)
    ∧ ((160 : Int) >>> (6 : Int) = 2 ∧ Int.land 160 16 >>> (4 : Int) = 0 ∧ Int.land 160 32 >>> (4 : Int) = 2)
    ∧ ((167 : Int) >>> (6 : Int) = 2 ∧ Int.land 167 16 >>> (4 : Int) = 0 ∧ Int.land 167 32 >>> (4 : Int) = 2)
    ∧ ((85 : Int) >>> (6 : Int) = 1 ∧ Int.land 85 16 >>> (4 : Int) = 1 ∧ Int.land 85 32 >>> (4 : Int) = 0)
    ∧ ((86 : Int) >>> (6 : Int) = 1 ∧ Int.land 86 16 >>> (4 : Int) = 1 ∧ Int.land 86 32 >>> (4 : Int) = 0)
    ∧ ((84 : Int) >>> (6 : Int) = 1 ∧ Int.land 84 16 >>> (4 : Int) = 1 ∧ Int.land 84 32 >>> (4 : Int) = 0) := by
  decide

end Decode

/-- A missing branchtable key means the lookup returns nothing. -/
theorem branchtable_eq_none (ir : Int) (h : ir ∉ branchtableKeys) :
    branchtable ir = none := by
  simp only [branchtableKeys, List.mem_cons, List.not_mem_nil, or_false, not_or] at h
  obtain ⟨h1, h2, h3, h4, h5, h6, h7, h8, h9, h10, h11, h12, h13⟩ := h
  unfold branchtable
  rw [if_neg h1, if_neg h2, if_neg h3, if_neg h4, if_neg h5, if_neg h6, if_neg h7,
    if_neg h8, if_neg h9, if_neg h10, if_neg h11, if_neg h12, if_neg h13]

/-- A successful branchtable lookup decodes a `uses_alu` field different from 1. -/
theorem branchtable_alu_ne_one (ir : Int) (h : Handler)
    (hbt : branchtable ir = some h) : Int.land ir 0b00100000 >>> (4 : Int) ≠ 1 := by
  by_cases hm : ir ∈ branchtableKeys
  · simp only [branchtableKeys] at hm
    fin_cases hm <;> decide
  · rw [branchtable_eq_none ir hm] at hbt
    exact absurd hbt (by simp)

/-- When the running indicator is clear the loop body never executes. -/
theorem run_succ_not_running (s : CPU) (n : Nat) (h : s.running = false) :
    run (n + 1) s = RunOutcome.halted s := by
  simp [run, h]

/-- A run whose first iteration succeeds and clears the running indicator
halts in that state, for any remaining budget. -/
theorem run_add_two (s t : CPU) (n : Nat) (h1 : s.running = true)
    (h2 : step s = StepResult.ok t) (h3 : t.running = false) :
    run (n + 2) s = RunOutcome.halted t := by
  show run ((n + 1) + 1) s = _
  rw [run, h2]
  simp [h1, run_succ_not_running t n h3]

/-- Step evaluation at a fetched `HLT` (0b00000001): clear `running`, advance by 1. -/
theorem step_HLT (s : CPU) (h : s.ram s.pc = HLT) :
    step s = StepResult.ok { s with running := false, pc := s.pc + 1 } := by
  simp [step, h, branchtable, callHandler, handle_hlt, Decode.vals,
    HLT, LDI, PRN, MUL, PUSH, POP, RET, CALL, ADD, CMP, JEQ, JNE, JMP]

/-- Step evaluation at a fetched `LDI` (0b10000010): write the second operand
into the register named by the first, advance by 3. -/
theorem step_LDI (s : CPU) (h : s.ram s.pc = LDI) :
    step s = StepResult.ok
      { s with reg := upd s.reg (s.ram (s.pc + 1)) (s.ram (s.pc + 2)), pc := s.pc + 3 } := by
  simp [step, h, branchtable, callHandler, handle_ldi, Decode.vals,
    HLT, LDI, PRN, MUL, PUSH, POP, RET, CALL, ADD, CMP, JEQ, JNE, JMP]

/-- Step evaluation at a fetched `PRN` (0b01000111): print, advance by 2. -/
theorem step_PRN (s : CPU) (h : s.ram s.pc = PRN) :
    step s = StepResult.ok { handle_prn s (s.ram (s.pc + 1)) with pc := s.pc + 2 } := by
  simp [step, h, branchtable, callHandler, handle_prn, Decode.vals,
    HLT, LDI, PRN, MUL, PUSH, POP, RET, CALL, ADD, CMP, JEQ, JNE, JMP]

/-- Step evaluation at a fetched `MUL` (0b10100010): despite the set `B` bit the
decoded `uses_alu` is 2, so dispatch goes through the ordinary two-operand
branch; advance by 3. -/
theorem step_MUL (s : CPU) (h : s.ram s.pc = MUL) :
    step s = StepResult.ok
      { handle_mul s (s.ram (s.pc + 1)) (s.ram (s.pc + 2)) with pc := s.pc + 3 } := by
  simp [step, h, branchtable, callHandler, handle_mul, Decode.vals,
    HLT, LDI, PRN, MUL, PUSH, POP, RET, CALL, ADD, CMP, JEQ, JNE, JMP]

/-- Step evaluation at a fetched `ADD` (0b10100000): same dispatch shape as `MUL`. -/
theorem step_ADD (s : CPU) (h : s.ram s.pc = ADD) :
    step s = StepResult.ok
      { handle_add s (s.ram (s.pc + 1)) (s.ram (s.pc + 2)) with pc := s.pc + 3 } := by
  simp [step, h, branchtable, callHandler, handle_add, Decode.vals,
    HLT, LDI, PRN, MUL, PUSH, POP, RET, CALL, ADD, CMP, JEQ, JNE, JMP]

/-- Step evaluation at a fetched `CMP` (0b10100111): compare, set `fl`, advance by 3. -/
theorem step_CMP (s : CPU) (h : s.ram s.pc = CMP) :
    step s = StepResult.ok
      { handle_cmp s (s.ram (s.pc + 1)) (s.ram (s.pc + 2)) with pc := s.pc + 3 } := by
  simp [step, h, branchtable, callHandler, Decode.vals,
    HLT, LDI, PRN, MUL, PUSH, POP, RET, CALL, ADD, CMP, JEQ, JNE, JMP]
  unfold handle_cmp
  split_ifs <;> rfl

/-- Step evaluation at a fetched `PUSH` (0b01000101): push, advance by 2. -/
theorem step_PUSH (s : CPU) (h : s.ram s.pc = PUSH) :
    step s = StepResult.ok { handle_push s (s.ram (s.pc + 1)) with pc := s.pc + 2 } := by
  simp [step, h, branchtable, callHandler, handle_push, Decode.vals,
    HLT, LDI, PRN, MUL, PUSH, POP, RET, CALL, ADD, CMP, JEQ, JNE, JMP]

/-- Step evaluation at a fetched `POP` (0b01000110): pop, advance by 2. -/
theorem step_POP (s : CPU) (h : s.ram s.pc = POP) :
    step s = StepResult.ok { handle_pop s (s.ram (s.pc + 1)) with pc := s.pc + 2 } := by
  simp [step, h, branchtable, callHandler, handle_pop, Decode.vals,
    HLT, LDI, PRN, MUL, PUSH, POP, RET, CALL, ADD, CMP, JEQ, JNE, JMP]

/-- Step evaluation at a fetched `CALL` (0b01010000): the `sets_pc` bit is set,
so `pc` is exactly what the handler left. -/
theorem step_CALL (s : CPU) (h : s.ram s.pc = CALL) :
    step s = StepResult.ok (handle_call s (s.ram (s.pc + 1))) := by
  simp [step, h, branchtable, callHandler, Decode.vals,
    HLT, LDI, PRN, MUL, PUSH, POP, RET, CALL, ADD, CMP, JEQ, JNE, JMP]

/-- Step evaluation at a fetched `RET` (0b00010001): `sets_pc` set, no advance. -/
theorem step_RET (s : CPU) (h : s.ram s.pc = RET) :
    step s = StepResult.ok (handle_ret s) := by
  simp [step, h, branchtable, callHandler, Decode.vals,
    HLT, LDI, PRN, MUL, PUSH, POP, RET, CALL, ADD, CMP, JEQ, JNE, JMP]

/-- Step evaluation at a fetched `JMP` (0b01010100): `sets_pc` set, no advance. -/
theorem step_JMP (s : CPU) (h : s.ram s.pc = JMP) :
    step s = StepResult.ok (handle_jmp s (s.ram (s.pc + 1))) := by
  simp [step, h, branchtable, callHandler, Decode.vals,
    HLT, LDI, PRN, MUL, PUSH, POP, RET, CALL, ADD, CMP, JEQ, JNE, JMP]

/-- Step evaluation at a fetched `JEQ` (0b01010101): `sets_pc` set, no advance. -/
theorem step_JEQ (s : CPU) (h : s.ram s.pc = JEQ) :
    step s = StepResult.ok (handle_jeq s (s.ram (s.pc + 1))) := by
  simp [step, h, branchtable, callHandler, Decode.vals,
    HLT, LDI, PRN, MUL, PUSH, POP, RET, CALL, ADD, CMP, JEQ, JNE, JMP]

/-- Step evaluation at a fetched `JNE` (0b01010110): `sets_pc` set, no advance. -/
theorem step_JNE (s : CPU) (h : s.ram s.pc = JNE) :
    step s = StepResult.ok (handle_jne s (s.ram (s.pc + 1))) := by
  simp [step, h, branchtable, callHandler, Decode.vals,
    HLT, LDI, PRN, MUL, PUSH, POP, RET, CALL, ADD, CMP, JEQ, JNE, JMP]

/-- Step evaluation at a byte absent from the branchtable: `sys.exit(1)` with
the `Unknown instruction` diagnostic exactly when the byte is non-zero. -/
theorem step_unknown (s : CPU) (hmem : s.ram s.pc ∉ branchtableKeys) :
    step s = StepResult.exit1
      (if s.ram s.pc ≠ 0 then some (s.ram s.pc) else none) s := by
  simp only [step, branchtable_eq_none (s.ram s.pc) hmem]

/-- Claim C1: the claim says `ADD`/`MUL` store the sum/product mod 256
(truncated to 8 bits).  The code stores the raw Python integer: with
`reg[0] = reg[1] = 128`, `ADD 0,1` leaves 256 in `reg[0]` (the claim demands
`(128+128) mod 256 = 0`), and with `reg[0] = reg[1] = 16`, `MUL 0,1` leaves
256 as well.  This evaluates the code at the failing input. -/
theorem add_mul_no_truncation :
    (handle_add (handle_ldi (handle_ldi initCPU 0 128) 1 128) 0 1).reg 0 = 256
    ∧ (handle_mul (handle_ldi (handle_ldi initCPU 0 16) 1 16) 0 1).reg 0 = 256
    ∧ ((128 + 128) % 256 : Int) = 0
    ∧ (handle_add (handle_ldi (handle_ldi initCPU 0 128) 1 128) 0 1).reg 0 ≠
        (128 + 128) % 256 := by
  decide

/-- Claim C3: a fetched byte absent from the branchtable terminates the run
with the non-success `sys.exit(1)`; when the byte is non-zero the
`Unknown instruction` diagnostic naming it is emitted first, and a zero byte
terminates the same way with no diagnostic. -/
theorem unknown_opcode_faults (s : CPU) (n : Nat) (hrun : s.running = true)
    (hmem : s.ram s.pc ∉ branchtableKeys) :
    run (n + 1) s =
      RunOutcome.fault (if s.ram s.pc ≠ 0 then some (s.ram s.pc) else none) s
    ∧ exitSuccess (run (n + 1) s) = false
    ∧ (s.ram s.pc = 0 → run (n + 1) s = RunOutcome.fault none s) := by
  have h := step_unknown s hmem
  have h1 : run (n + 1) s =
      RunOutcome.fault (if s.ram s.pc ≠ 0 then some (s.ram s.pc) else none) s := by
    simp [run, hrun, h]
  refine ⟨h1, ?_, ?_⟩
  · rw [h1]; rfl
  · intro h0
    rw [h1]
    simp [h0]

/-- Witness for C3 at the concrete unknown bytes 255 and 0. -/
theorem unknown_opcode_faults_witness :
    run 1 (load [255] initCPU) = RunOutcome.fault (some 255) (load [255] initCPU)
    ∧ exitSuccess (run 1 (load [255] initCPU)) = false
    ∧ run 1 initCPU = RunOutcome.fault none initCPU := by
  have h := unknown_opcode_faults (load [255] initCPU) 0 rfl (by decide)
  have h0 := unknown_opcode_faults initCPU 0 rfl (by decide)
  refine ⟨?_, h.2.1, h0.2.2 rfl⟩
  have e : (if (load [255] initCPU).ram (load [255] initCPU).pc ≠ 0 then
      some ((load [255] initCPU).ram (load [255] initCPU).pc) else none) =
      some (255 : Int) := by decide
  rw [← e]
  exact h.1

/-- Claim C10: the single-`HLT` program halts normally (success, no output)
after that one instruction; the running indicator is true at construction, is
cleared only by `handle_hlt` among all handlers, and is the loop condition
checked before each fetch. -/
theorem halt_termination :
    isHalted (run 2 (load [HLT] initCPU)) = true
    ∧ exitSuccess (run 2 (load [HLT] initCPU)) = true
    ∧ outputOf (run 2 (load [HLT] initCPU)) = []
    ∧ (∀ n : Nat, run (n + 2) (load [HLT] initCPU) = run 2 (load [HLT] initCPU))
    ∧ initCPU.running = true
    ∧ (∀ s : CPU, (handle_hlt s).running = false)
    ∧ (∀ (s : CPU) (a b : Int),
        (handle_jmp s a).running = s.running ∧ (handle_jne s a).running = s.running
        ∧ (handle_jeq s a).running = s.running ∧ (handle_cmp s a b).running = s.running
        ∧ (handle_call s a).running = s.running ∧ (handle_ret s).running = s.running
        ∧ (handle_ldi s a b).running = s.running ∧ (handle_prn s a).running = s.running
        ∧ (handle_mul s a b).running = s.running ∧ (handle_add s a b).running = s.running
        ∧ (handle_push s a).running = s.running ∧ (handle_pop s a).running = s.running)
    ∧ (∀ (s : CPU) (n : Nat), s.running = false → run (n + 1) s = RunOutcome.halted s) := by
  refine ⟨by decide, by decide, by decide, ?_, rfl, fun s => rfl, ?_, ?_⟩
  · intro n
    have h2 : step (load [HLT] initCPU) =
        StepResult.ok (stateOf (run 2 (load [HLT] initCPU))) := rfl
    have h3 : (stateOf (run 2 (load [HLT] initCPU))).running = false := rfl
    rw [run_add_two _ _ n rfl h2 h3]
    rfl
  · intro s a b
    refine ⟨rfl, ?_, ?_, ?_, rfl, rfl, rfl, rfl, rfl, rfl, rfl, rfl⟩
    · unfold handle_jne; split <;> rfl
    · unfold handle_jeq; split <;> rfl
    · unfold handle_cmp; split_ifs <;> rfl
  · intro s n h
    exact run_succ_not_running s n h

/-- Witness for C10's hypothesis-bearing part at a concrete stopped state. -/
theorem halt_termination_witness :
    (handle_hlt initCPU).running = false
    ∧ run 1 (handle_hlt initCPU) = RunOutcome.halted (handle_hlt initCPU) := by
  exact ⟨rfl, halt_termination.2.2.2.2.2.2.2 (handle_hlt initCPU) 0 rfl⟩

/-- Claim C8: the run loop's ALU branch, guarded by `uses_alu == 1`, is dead:
`(ir & 0b00100000) >> 4` is 0 or 2 but never 1 for every opcode in the
branchtable (indeed the step relation never produces the `attrError` outcome
that branch would raise, for any state), so the ALU-flagged opcodes `MUL`,
`ADD`, `CMP` are dispatched through the ordinary two-operand path. -/
theorem alu_branch_never_taken :
    (∀ ir ∈ branchtableKeys, Int.land ir 0b00100000 >>> (4 : Int) ≠ 1)
    ∧ (∀ s t : CPU, step s ≠ StepResult.attrError t)
    ∧ (∀ s : CPU, s.ram s.pc = MUL → step s = StepResult.ok
        { handle_mul s (s.ram (s.pc + 1)) (s.ram (s.pc + 2)) with pc := s.pc + 3 })
    ∧ (∀ s : CPU, s.ram s.pc = ADD → step s = StepResult.ok
        { handle_add s (s.ram (s.pc + 1)) (s.ram (s.pc + 2)) with pc := s.pc + 3 })
    ∧ (∀ s : CPU, s.ram s.pc = CMP → step s = StepResult.ok
        { handle_cmp s (s.ram (s.pc + 1)) (s.ram (s.pc + 2)) with pc := s.pc + 3 }) := by
  refine ⟨by decide, ?_, step_MUL, step_ADD, step_CMP⟩
  intro s t hcontra
  by_cases hm : s.ram s.pc ∈ branchtableKeys
  · simp only [branchtableKeys, List.mem_cons, List.not_mem_nil, or_false] at hm
    rcases hm with h | h | h | h | h | h | h | h | h | h | h | h | h
    · rw [step_HLT s h] at hcontra; exact StepResult.noConfusion hcontra
    · rw [step_LDI s h] at hcontra; exact StepResult.noConfusion hcontra
    · rw [step_PRN s h] at hcontra; exact StepResult.noConfusion hcontra
    · rw [step_MUL s h] at hcontra; exact StepResult.noConfusion hcontra
    · rw [step_PUSH s h] at hcontra; exact StepResult.noConfusion hcontra
    · rw [step_POP s h] at hcontra; exact StepResult.noConfusion hcontra
    · rw [step_RET s h] at hcontra; exact StepResult.noConfusion hcontra
    · rw [step_CALL s h] at hcontra; exact StepResult.noConfusion hcontra
    · rw [step_ADD s h] at hcontra; exact StepResult.noConfusion hcontra
    · rw [step_CMP s h] at hcontra; exact StepResult.noConfusion hcontra
    · rw [step_JEQ s h] at hcontra; exact StepResult.noConfusion hcontra
    · rw [step_JNE s h] at hcontra; exact StepResult.noConfusion hcontra
    · rw [step_JMP s h] at hcontra; exact StepResult.noConfusion hcontra
  · rw [step_unknown s hm] at hcontra; exact StepResult.noConfusion hcontra

/-- Witness for C8's hypothesis-bearing parts at concrete inputs. -/
theorem alu_branch_never_taken_witness :
    Int.land MUL 0b00100000 >>> (4 : Int) ≠ 1
    ∧ step (load [MUL, 0, 1] initCPU) ≠
        StepResult.attrError (load [MUL, 0, 1] initCPU)
    ∧ step (load [CMP, 0, 1] initCPU) = StepResult.ok
        { handle_cmp (load [CMP, 0, 1] initCPU)
            ((load [CMP, 0, 1] initCPU).ram ((load [CMP, 0, 1] initCPU).pc + 1))
            ((load [CMP, 0, 1] initCPU).ram ((load [CMP, 0, 1] initCPU).pc + 2))
          with pc := (load [CMP, 0, 1] initCPU).pc + 3 } := by
  refine ⟨alu_branch_never_taken.1 MUL (by decide), ?_, ?_⟩
  · exact alu_branch_never_taken.2.1 (load [MUL, 0, 1] initCPU) (load [MUL, 0, 1] initCPU)
  · exact alu_branch_never_taken.2.2.2.2 (load [CMP, 0, 1] initCPU) (by decide)

/-- Claim C7: when dispatch succeeds (handler found and invoked with the
arity implied by `ir >> 6`), the loop advances `pc` by `1 + (ir >> 6)` past
what the handler left exactly when the decoded `sets_pc` bit field
`(ir & 0b00010000) >> 4` differs from 1, and performs no advance at all when
that field is 1. -/
theorem pc_advance_rule (s : CPU) (h : Handler) (s1 : CPU)
    (htbl : branchtable (s.ram s.pc) = some h)
    (hcall : callHandler h (s.ram s.pc >>> 6) s (s.ram (s.pc + 1)) (s.ram (s.pc + 2))
      = some s1) :
    (Int.land (s.ram s.pc) 0b00010000 >>> (4 : Int) ≠ 1 →
      step s = StepResult.ok { s1 with pc := s1.pc + (1 + (s.ram s.pc >>> 6)) })
    ∧ (Int.land (s.ram s.pc) 0b00010000 >>> (4 : Int) = 1 →
      step s = StepResult.ok s1) := by
  have halu := branchtable_alu_ne_one _ _ htbl
  constructor
  · intro hbit
    unfold step
    simp only [htbl, if_neg halu, hcall, if_pos hbit]
    rfl
  · intro hbit
    unfold step
    simp only [htbl, if_neg halu, hcall, if_neg (not_not_intro hbit)]

/-- Witness for C7: an advancing opcode (`MUL`, `pc` ends at 3) and a
`sets_pc` opcode (`JMP` to `reg[0] = 0`, `pc` left exactly where the handler
put it). -/
theorem pc_advance_rule_witness :
    (okState (step (load [MUL, 0, 0] initCPU))).map (fun t => t.pc) = some 3
    ∧ (okState (step (load [JMP, 0] initCPU))).map (fun t => t.pc) = some 0 := by
  constructor
  · have h := (pc_advance_rule (load [MUL, 0, 0] initCPU) (Handler.h2 handle_mul)
      (handle_mul (load [MUL, 0, 0] initCPU)
        ((load [MUL, 0, 0] initCPU).ram ((load [MUL, 0, 0] initCPU).pc + 1))
        ((load [MUL, 0, 0] initCPU).ram ((load [MUL, 0, 0] initCPU).pc + 2)))
      rfl rfl).1 (by decide)
    rw [h]
    decide
  · have h := (pc_advance_rule (load [JMP, 0] initCPU) (Handler.h1 handle_jmp)
      (handle_jmp (load [JMP, 0] initCPU)
        ((load [JMP, 0] initCPU).ram ((load [JMP, 0] initCPU).pc + 1)))
      rfl rfl).2 (by decide)
    rw [h]
    decide

/-- Claim C9: for any register index `r` in 0..7 and value `v` in 0..255, the
program `LDI r,v ; PRN r ; HLT` halts and emits exactly `v` (the printed list
of decimal values is `[v]`); `handle_prn` mutates nothing but the output
stream (the `pc` advance is done by the loop), appending `reg[a]`. -/
theorem ldi_prn_round_trip (r v : Int) (hr0 : 0 ≤ r) (hr : r < 8)
    (hv0 : 0 ≤ v) (hv : v < 256) :
    isHalted (run 4 (load [LDI, r, v, PRN, r, HLT] initCPU)) = true
    ∧ outputOf (run 4 (load [LDI, r, v, PRN, r, HLT] initCPU)) = [v]
    ∧ (∀ (s : CPU) (a : Int),
        (handle_prn s a).reg = s.reg ∧ (handle_prn s a).ram = s.ram
        ∧ (handle_prn s a).fl = s.fl ∧ (handle_prn s a).running = s.running
        ∧ (handle_prn s a).pc = s.pc
        ∧ (handle_prn s a).output = s.output ++ [s.reg a]) := by
  refine ⟨?_, ?_, fun s a => ⟨rfl, rfl, rfl, rfl, rfl, rfl⟩⟩ <;>
  · simp [run, step, load, loadFrom, initCPU, upd, branchtable, callHandler,
      handle_ldi, handle_prn, handle_hlt, isHalted, outputOf, stateOf, Decode.vals,
      HLT, LDI, PRN, MUL, PUSH, POP, RET, CALL, ADD, CMP, JEQ, JNE, JMP]

/-- Witness for C9 at `r = 3`, `v = 255`. -/
theorem ldi_prn_round_trip_witness :
    isHalted (run 4 (load [LDI, 3, 255, PRN, 3, HLT] initCPU)) = true
    ∧ outputOf (run 4 (load [LDI, 3, 255, PRN, 3, HLT] initCPU)) = [255] := by
  have h := ldi_prn_round_trip 3 255 (by decide) (by decide) (by decide) (by decide)
  exact ⟨h.1, h.2.1⟩


/-- Two successive loop iterations evaluated from their step equations. -/
theorem step2_eval (s t u : CPU) (hs : step s = StepResult.ok t)
    (ht : step t = StepResult.ok u) : step2 s = some u := by
  simp [step2, hs, ht, okState]

/-- `handle_cmp` in the less-than case. -/
theorem handle_cmp_lt (s : CPU) (a b : Int) (h : s.reg a < s.reg b) :
    handle_cmp s a b = { s with fl := 4 } := by
  unfold handle_cmp
  rw [if_pos h]

/-- `handle_cmp` in the greater-than case. -/
theorem handle_cmp_gt (s : CPU) (a b : Int) (h : s.reg b < s.reg a) :
    handle_cmp s a b = { s with fl := 2 } := by
  unfold handle_cmp
  rw [if_neg (by omega), if_pos h]

/-- `handle_cmp` in the equal case. -/
theorem handle_cmp_eq (s : CPU) (a b : Int) (h : s.reg a = s.reg b) :
    handle_cmp s a b = { s with fl := 1 } := by
  unfold handle_cmp
  rw [if_neg (by omega), if_neg (by omega)]

/-- Claim C2: after `CMP a,b` (at `pc`, advancing to `pc+3`), a `JEQ r` placed
next sets `pc` to `reg[r]` when `reg[a] = reg[b]` and otherwise advances by
exactly 2 (to `pc+5`); a `JNE r` placed next sets `pc` to `reg[r]` when
`reg[a] ≠ reg[b]` and otherwise advances by exactly 2.  Comparison is the raw
integer order on the register contents. -/
theorem cmp_jeq_jne (s : CPU) (a b r : Int)
    (h0 : s.ram s.pc = CMP) (h1 : s.ram (s.pc + 1) = a) (h2 : s.ram (s.pc + 2) = b)
    (h4 : s.ram (s.pc + 4) = r) :
    (s.ram (s.pc + 3) = JEQ →
      (step2 s).map (fun t => t.pc) =
        some (if s.reg a = s.reg b then s.reg r else s.pc + 5))
    ∧ (s.ram (s.pc + 3) = JNE →
      (step2 s).map (fun t => t.pc) =
        some (if s.reg a = s.reg b then s.pc + 5 else s.reg r)) := by
  have hc := step_CMP s h0
  rw [h1, h2] at hc
  constructor
  · intro h3
    rcases lt_trichotomy (s.reg a) (s.reg b) with hlt | heq | hgt
    · rw [handle_cmp_lt s a b hlt] at hc
      have hj := step_JEQ { s with fl := 4, pc := s.pc + 3 } h3
      rw [step2_eval s _ _ hc hj]
      have hr4 : ({ s with fl := 4, pc := s.pc + 3 } : CPU).ram
          (({ s with fl := 4, pc := s.pc + 3 } : CPU).pc + 1) = r := by
        show s.ram (s.pc + 3 + 1) = r
        rw [show s.pc + 3 + 1 = s.pc + 4 by ring]
        exact h4
      rw [hr4]
      rw [if_neg (ne_of_lt hlt)]
      simp [handle_jeq]
      ring
    · rw [handle_cmp_eq s a b heq] at hc
      have hj := step_JEQ { s with fl := 1, pc := s.pc + 3 } h3
      rw [step2_eval s _ _ hc hj]
      have hr4 : ({ s with fl := 1, pc := s.pc + 3 } : CPU).ram
          (({ s with fl := 1, pc := s.pc + 3 } : CPU).pc + 1) = r := by
        show s.ram (s.pc + 3 + 1) = r
        rw [show s.pc + 3 + 1 = s.pc + 4 by ring]
        exact h4
      rw [hr4]
      rw [if_pos heq]
      simp [handle_jeq]
    · rw [handle_cmp_gt s a b hgt] at hc
      have hj := step_JEQ { s with fl := 2, pc := s.pc + 3 } h3
      rw [step2_eval s _ _ hc hj]
      have hr4 : ({ s with fl := 2, pc := s.pc + 3 } : CPU).ram
          (({ s with fl := 2, pc := s.pc + 3 } : CPU).pc + 1) = r := by
        show s.ram (s.pc + 3 + 1) = r
        rw [show s.pc + 3 + 1 = s.pc + 4 by ring]
        exact h4
      rw [hr4]
      rw [if_neg (ne_of_gt hgt)]
      simp [handle_jeq]
      ring
  · intro h3
    rcases lt_trichotomy (s.reg a) (s.reg b) with hlt | heq | hgt
    · rw [handle_cmp_lt s a b hlt] at hc
      have hj := step_JNE { s with fl := 4, pc := s.pc + 3 } h3
      rw [step2_eval s _ _ hc hj]
      have hr4 : ({ s with fl := 4, pc := s.pc + 3 } : CPU).ram
          (({ s with fl := 4, pc := s.pc + 3 } : CPU).pc + 1) = r := by
        show s.ram (s.pc + 3 + 1) = r
        rw [show s.pc + 3 + 1 = s.pc + 4 by ring]
        exact h4
      rw [hr4]
      rw [if_neg (ne_of_lt hlt)]
      simp [handle_jne, (by decide : Int.land (4 : Int) 1 = 0)]
    · rw [handle_cmp_eq s a b heq] at hc
      have hj := step_JNE { s with fl := 1, pc := s.pc + 3 } h3
      rw [step2_eval s _ _ hc hj]
      have hr4 : ({ s with fl := 1, pc := s.pc + 3 } : CPU).ram
          (({ s with fl := 1, pc := s.pc + 3 } : CPU).pc + 1) = r := by
        show s.ram (s.pc + 3 + 1) = r
        rw [show s.pc + 3 + 1 = s.pc + 4 by ring]
        exact h4
      rw [hr4]
      rw [if_pos heq]
      simp [handle_jne, (by decide : Int.land (1 : Int) 1 = 1)]
      ring
    · rw [handle_cmp_gt s a b hgt] at hc
      have hj := step_JNE { s with fl := 2, pc := s.pc + 3 } h3
      rw [step2_eval s _ _ hc hj]
      have hr4 : ({ s with fl := 2, pc := s.pc + 3 } : CPU).ram
          (({ s with fl := 2, pc := s.pc + 3 } : CPU).pc + 1) = r := by
        show s.ram (s.pc + 3 + 1) = r
        rw [show s.pc + 3 + 1 = s.pc + 4 by ring]
        exact h4
      rw [hr4]
      rw [if_neg (ne_of_gt hgt)]
      simp [handle_jne, (by decide : Int.land (2 : Int) 1 = 0)]


/-- Witness for C2: equal registers, a `JEQ` that jumps to `reg[2] = 0` and a
`JNE` that falls through to `pc+5 = 5`. -/
theorem cmp_jeq_jne_witness :
    (step2 (load [CMP, 0, 1, JEQ, 2] initCPU)).map (fun t => t.pc) = some 0
    ∧ (step2 (load [CMP, 0, 1, JNE, 2] initCPU)).map (fun t => t.pc) = some 5 := by
  constructor
  · have h := (cmp_jeq_jne (load [CMP, 0, 1, JEQ, 2] initCPU) 0 1 2
      (by decide) (by decide) (by decide) (by decide)).1 (by decide)
    rw [h]
    decide
  · have h := (cmp_jeq_jne (load [CMP, 0, 1, JNE, 2] initCPU) 0 1 2
      (by decide) (by decide) (by decide) (by decide)).2 (by decide)
    rw [h]
    decide


/-- Claim C6: executing `CALL r` at address `p` (with `r` a general-purpose
register, `reg[r]` the address of a `RET` instruction, and that address not
the stack cell the return address is pushed into) pushes the return address
`p+2` at `reg[SP]-1`, transfers control to `reg[r]`, and after the `RET`
executes `pc = p+2` and `SP` is restored to its pre-call value. -/
theorem call_ret_symmetry (s : CPU) (r : Int) (hr : r ≠ 7)
    (hcall : s.ram s.pc = CALL) (hop : s.ram (s.pc + 1) = r)
    (hret : s.ram (s.reg r) = RET) (hq : s.reg r ≠ s.reg SP - 1) :
    (okState (step s)).map (fun t => t.pc) = some (s.reg r)
    ∧ (okState (step s)).map (fun t => t.ram (s.reg SP - 1)) = some (s.pc + 2)
    ∧ (step2 s).map (fun t => t.pc) = some (s.pc + 2)
    ∧ (step2 s).map (fun t => t.reg SP) = some (s.reg SP) := by
  have h1 := step_CALL s hcall
  rw [hop] at h1
  have hT : handle_call s r =
      { s with
        reg := upd s.reg SP (s.reg SP - 1)
        ram := upd s.ram (s.reg SP - 1) (s.pc + 2)
        pc := s.reg r } := by
    unfold handle_call upd
    simp [SP, hr]
  rw [hT] at h1
  have hfetch : ({ s with
        reg := upd s.reg SP (s.reg SP - 1)
        ram := upd s.ram (s.reg SP - 1) (s.pc + 2)
        pc := s.reg r } : CPU).ram
      ({ s with
        reg := upd s.reg SP (s.reg SP - 1)
        ram := upd s.ram (s.reg SP - 1) (s.pc + 2)
        pc := s.reg r } : CPU).pc = RET := by
    show upd s.ram (s.reg SP - 1) (s.pc + 2) (s.reg r) = RET
    unfold upd
    rw [if_neg hq]
    exact hret
  have h2 := step_RET _ hfetch
  refine ⟨?_, ?_, ?_, ?_⟩
  · rw [h1]; rfl
  · rw [h1]
    show some (upd s.ram (s.reg SP - 1) (s.pc + 2) (s.reg SP - 1)) = some (s.pc + 2)
    unfold upd
    rw [if_pos rfl]
  · rw [step2_eval s _ _ h1 h2]
    show some ((handle_ret _).pc) = _
    unfold handle_ret upd
    simp [SP]
  · rw [step2_eval s _ _ h1 h2]
    show some ((handle_ret _).reg SP) = _
    unfold handle_ret upd
    simp [SP]


/-- Witness for C6: `CALL 0` at address 0 with `reg[0] = 3` pointing at a
`RET`; the return address 2 is pushed at 243, and after the `RET` the
machine is at `pc = 2` with `SP` back at 244. -/
theorem call_ret_symmetry_witness :
    (okState (step (handle_ldi (load [CALL, 0, HLT, RET] initCPU) 0 3))).map
        (fun t => t.pc) = some 3
    ∧ (okState (step (handle_ldi (load [CALL, 0, HLT, RET] initCPU) 0 3))).map
        (fun t => t.ram 243) = some 2
    ∧ (step2 (handle_ldi (load [CALL, 0, HLT, RET] initCPU) 0 3)).map
        (fun t => t.pc) = some 2
    ∧ (step2 (handle_ldi (load [CALL, 0, HLT, RET] initCPU) 0 3)).map
        (fun t => t.reg SP) = some 244 := by
  obtain ⟨a1, a2, a3, a4⟩ := call_ret_symmetry
    (handle_ldi (load [CALL, 0, HLT, RET] initCPU) 0 3) 0
    (by decide) (by decide) (by decide) (by decide) (by decide)
  exact ⟨a1, a2, a3, a4⟩

/-- Any normally-continuing loop iteration either preserves `fl` or sets it to
one of the three single-bit compare codes. -/
theorem step_ok_fl (t u : CPU) (h : step t = StepResult.ok u) :
    u.fl = t.fl ∨ u.fl = 0b100 ∨ u.fl = 0b010 ∨ u.fl = 0b001 := by
  by_cases hm : t.ram t.pc ∈ branchtableKeys
  · simp only [branchtableKeys, List.mem_cons, List.not_mem_nil, or_false] at hm
    rcases hm with hk | hk | hk | hk | hk | hk | hk | hk | hk | hk | hk | hk | hk
    · rw [step_HLT t hk] at h; cases h; left; rfl
    · rw [step_LDI t hk] at h; cases h; left; rfl
    · rw [step_PRN t hk] at h; cases h; left; rfl
    · rw [step_MUL t hk] at h; cases h; left; rfl
    · rw [step_PUSH t hk] at h; cases h; left; rfl
    · rw [step_POP t hk] at h; cases h; left; rfl
    · rw [step_RET t hk] at h; cases h; left; rfl
    · rw [step_CALL t hk] at h; cases h; left; rfl
    · rw [step_ADD t hk] at h; cases h; left; rfl
    · rw [step_CMP t hk] at h
      cases h
      rcases lt_trichotomy (t.reg (t.ram (t.pc + 1))) (t.reg (t.ram (t.pc + 2))) with
        hlt | heq | hgt
      · rw [show ({ handle_cmp t (t.ram (t.pc + 1)) (t.ram (t.pc + 2)) with
            pc := t.pc + 3 } : CPU).fl =
            (handle_cmp t (t.ram (t.pc + 1)) (t.ram (t.pc + 2))).fl from rfl,
          handle_cmp_lt _ _ _ hlt]
        right; left; rfl
      · rw [show ({ handle_cmp t (t.ram (t.pc + 1)) (t.ram (t.pc + 2)) with
            pc := t.pc + 3 } : CPU).fl =
            (handle_cmp t (t.ram (t.pc + 1)) (t.ram (t.pc + 2))).fl from rfl,
          handle_cmp_eq _ _ _ heq]
        right; right; right; rfl
      · rw [show ({ handle_cmp t (t.ram (t.pc + 1)) (t.ram (t.pc + 2)) with
            pc := t.pc + 3 } : CPU).fl =
            (handle_cmp t (t.ram (t.pc + 1)) (t.ram (t.pc + 2))).fl from rfl,
          handle_cmp_gt _ _ _ hgt]
        right; right; left; rfl
    · rw [step_JEQ t hk] at h
      cases h
      left
      show (handle_jeq t (t.ram (t.pc + 1))).fl = t.fl
      unfold handle_jeq
      split_ifs <;> rfl
    · rw [step_JNE t hk] at h
      cases h
      left
      show (handle_jne t (t.ram (t.pc + 1))).fl = t.fl
      unfold handle_jne
      split_ifs <;> rfl
    · rw [step_JMP t hk] at h; cases h; left; rfl
  · rw [step_unknown t hm] at h
    exact StepResult.noConfusion h

/-- The states reachable from `s` by iterating normally-continuing loop
iterations. -/
inductive Reaches : CPU → CPU → Prop where
  | refl (s : CPU) : Reaches s s
  | tail {s t u : CPU} : Reaches s t → step t = StepResult.ok u → Reaches s u

/-- Claim C4: `fl` starts at 0, `handle_cmp` sets it to exactly one of the
three single-bit codes (`0b100` for less, `0b010` for greater, `0b001` for
equal), every other handler leaves it unchanged, and in every state reachable
from a freshly loaded machine `fl` is one of `0b000`, `0b100`, `0b010`,
`0b001`. -/
theorem fl_invariant :
    initCPU.fl = 0
    ∧ (∀ program : List Int, (load program initCPU).fl = 0)
    ∧ (∀ (s : CPU) (a b : Int), (handle_cmp s a b).fl =
        if s.reg a < s.reg b then 0b100
        else if s.reg a > s.reg b then 0b010 else 0b001)
    ∧ (∀ (s : CPU) (a b : Int),
        (handle_jmp s a).fl = s.fl ∧ (handle_jne s a).fl = s.fl
        ∧ (handle_jeq s a).fl = s.fl ∧ (handle_call s a).fl = s.fl
        ∧ (handle_ret s).fl = s.fl ∧ (handle_hlt s).fl = s.fl
        ∧ (handle_ldi s a b).fl = s.fl ∧ (handle_prn s a).fl = s.fl
        ∧ (handle_mul s a b).fl = s.fl ∧ (handle_add s a b).fl = s.fl
        ∧ (handle_push s a).fl = s.fl ∧ (handle_pop s a).fl = s.fl)
    ∧ (∀ (program : List Int) (t : CPU), Reaches (load program initCPU) t →
        t.fl = 0 ∨ t.fl = 0b100 ∨ t.fl = 0b010 ∨ t.fl = 0b001) := by
  refine ⟨rfl, fun program => rfl, ?_, ?_, ?_⟩
  · intro s a b
    unfold handle_cmp
    split_ifs <;> rfl
  · intro s a b
    refine ⟨rfl, ?_, ?_, rfl, rfl, rfl, rfl, rfl, rfl, rfl, rfl, rfl⟩
    · unfold handle_jne; split_ifs <;> rfl
    · unfold handle_jeq; split_ifs <;> rfl
  · intro program t h
    induction h with
    | refl => left; rfl
    | tail hreach hstep ih =>
      rcases step_ok_fl _ _ hstep with he | h4 | h2 | h1
      · rw [he]; exact ih
      · right; left; exact h4
      · right; right; left; exact h2
      · right; right; right; exact h1

/-- Witness for C4: the state reached by one `CMP 0,1` step from a loaded
machine satisfies the `fl` invariant. -/
theorem fl_invariant_witness :
    (stateOf (run 2 (load [CMP, 0, 1] initCPU))).fl = 0
    ∨ (stateOf (run 2 (load [CMP, 0, 1] initCPU))).fl = 0b100
    ∨ (stateOf (run 2 (load [CMP, 0, 1] initCPU))).fl = 0b010
    ∨ (stateOf (run 2 (load [CMP, 0, 1] initCPU))).fl = 0b001 := by
  exact fl_invariant.2.2.2.2 [CMP, 0, 1] (stateOf (run 2 (load [CMP, 0, 1] initCPU)))
    (Reaches.tail (Reaches.refl _) rfl)

/-- `upd` read back at the written index. -/
theorem upd_same (f : Int → Int) (i v : Int) : upd f i v i = v := by
  unfold upd
  rw [if_pos rfl]

/-- `upd` read back at a different index. -/
theorem upd_other (f : Int → Int) (i v j : Int) (h : j ≠ i) : upd f i v j = f j := by
  unfold upd
  rw [if_neg h]

/-- A sequence of `PUSH` operations: `handle_push` applied for each register
index in the list, left to right. -/
def pushSeq : CPU → List Int → CPU
  | s, [] => s
  | s, a :: rest => pushSeq (handle_push s a) rest

/-- A sequence of `POP` operations: `handle_pop` applied for each destination
register index, left to right, also recording each value the pop loads from
ram (`self.ram[self.reg[SP]]`, the exact read `handle_pop` performs). -/
def popSeq : CPU → List Int → CPU × List Int
  | s, [] => (s, [])
  | s, b :: rest =>
    let v := s.ram (s.reg SP)
    let p := popSeq (handle_pop s b) rest
    (p.1, v :: p.2)

/-- The `n` ram cells starting at `sp`, going upward. -/
def stackRead (ram : Int → Int) (sp : Int) : Nat → List Int
  | 0 => []
  | n + 1 => ram sp :: stackRead ram (sp + 1) n

/-- Reading one more cell appends the top address's content. -/
theorem stackRead_snoc (n : Nat) (ram : Int → Int) (sp : Int) :
    stackRead ram sp (n + 1) = stackRead ram sp n ++ [ram (sp + n)] := by
  induction n generalizing sp with
  | zero => simp [stackRead]
  | succ m ih =>
    rw [stackRead, ih (sp + 1), stackRead]
    simp [List.cons_append]
    congr 1
    ring

/-- `pushSeq` never changes a register other than `SP`. -/
theorem pushSeq_reg_other (as : List Int) :
    ∀ (s : CPU) (i : Int), i ≠ SP → (pushSeq s as).reg i = s.reg i := by
  induction as with
  | nil => intro s i h; rfl
  | cons a rest ih =>
    intro s i h
    rw [pushSeq, ih (handle_push s a) i h]
    exact upd_other s.reg SP (s.reg SP - 1) i h

/-- `pushSeq` decrements `SP` once per pushed element. -/
theorem pushSeq_reg_SP (as : List Int) :
    ∀ s : CPU, (pushSeq s as).reg SP = s.reg SP - as.length := by
  induction as with
  | nil => intro s; simp [pushSeq]
  | cons a rest ih =>
    intro s
    rw [pushSeq, ih (handle_push s a)]
    have : (handle_push s a).reg SP = s.reg SP - 1 := upd_same s.reg SP (s.reg SP - 1)
    rw [this]
    simp [List.length_cons]
    push_cast
    ring

/-- `pushSeq` writes only strictly below the entry `SP`. -/
theorem pushSeq_ram_high (as : List Int) :
    ∀ (s : CPU) (j : Int), s.reg SP ≤ j → (pushSeq s as).ram j = s.ram j := by
  induction as with
  | nil => intro s j h; rfl
  | cons a rest ih =>
    intro s j h
    have hsp : (handle_push s a).reg SP = s.reg SP - 1 := upd_same s.reg SP (s.reg SP - 1)
    rw [pushSeq, ih (handle_push s a) j (by rw [hsp]; omega)]
    show upd s.ram (upd s.reg SP (s.reg SP - 1) SP) _ j = s.ram j
    rw [upd_same s.reg SP (s.reg SP - 1)]
    exact upd_other _ _ _ _ (by omega)

/-- After pushing the registers in `as` (none of them `SP`), the cells from
the new `SP` upward hold exactly the pushed register values, last push
lowest. -/
theorem pushSeq_stack (as : List Int) :
    ∀ s : CPU, (∀ a ∈ as, a ≠ SP) →
      stackRead (pushSeq s as).ram ((pushSeq s as).reg SP) as.length
        = (as.map s.reg).reverse := by
  induction as with
  | nil => intro s h; rfl
  | cons a rest ih =>
    intro s h
    have ha : a ≠ SP := h a (List.mem_cons_self a rest)
    have hrest : ∀ x ∈ rest, x ≠ SP := fun x hx => h x (List.mem_cons_of_mem a hx)
    rw [pushSeq, List.length_cons, stackRead_snoc]
    have hsp1 : (handle_push s a).reg SP = s.reg SP - 1 := upd_same s.reg SP (s.reg SP - 1)
    have e1 : stackRead (pushSeq (handle_push s a) rest).ram
        ((pushSeq (handle_push s a) rest).reg SP) rest.length
        = (rest.map (handle_push s a).reg).reverse := ih (handle_push s a) hrest
    have e2 : rest.map (handle_push s a).reg = rest.map s.reg := by
      apply List.map_congr_left
      intro x hx
      exact upd_other s.reg SP (s.reg SP - 1) x (hrest x hx)
    have e3 : (pushSeq (handle_push s a) rest).reg SP + rest.length
        = (handle_push s a).reg SP := by
      rw [pushSeq_reg_SP]
      ring
    have e4 : (pushSeq (handle_push s a) rest).ram ((handle_push s a).reg SP)
        = s.reg a := by
      rw [pushSeq_ram_high rest (handle_push s a) _ le_rfl]
      show upd s.ram (upd s.reg SP (s.reg SP - 1) SP) (upd s.reg SP (s.reg SP - 1) a)
          ((handle_push s a).reg SP) = s.reg a
      rw [hsp1, upd_same s.reg SP (s.reg SP - 1), upd_same, upd_other s.reg SP _ a ha]
    rw [e1, e2, e3, e4, List.map_cons, List.reverse_cons]

/-- The values loaded by a `POP` sequence are the cells from the entry `SP`
upward, and `SP` rises once per pop. -/
theorem popSeq_spec (bs : List Int) :
    ∀ s : CPU, (∀ b ∈ bs, b ≠ SP) →
      (popSeq s bs).2 = stackRead s.ram (s.reg SP) bs.length
      ∧ (popSeq s bs).1.reg SP = s.reg SP + bs.length := by
  induction bs with
  | nil => intro s h; exact ⟨rfl, by simp [popSeq]⟩
  | cons b rest ih =>
    intro s h
    have hb : b ≠ SP := h b (List.mem_cons_self b rest)
    have hrest : ∀ x ∈ rest, x ≠ SP := fun x hx => h x (List.mem_cons_of_mem b hx)
    have hram : (handle_pop s b).ram = s.ram := rfl
    have hsp : (handle_pop s b).reg SP = s.reg SP + 1 := by
      show upd (upd s.reg b (s.ram (s.reg SP))) SP
          (upd s.reg b (s.ram (s.reg SP)) SP + 1) SP = s.reg SP + 1
      rw [upd_same, upd_other s.reg b _ SP (Ne.symm hb)]
    obtain ⟨ih1, ih2⟩ := ih (handle_pop s b) hrest
    constructor
    · show s.ram (s.reg SP) :: (popSeq (handle_pop s b) rest).2 = _
      rw [ih1, hram, hsp, List.length_cons, stackRead]
    · show (popSeq (handle_pop s b) rest).1.reg SP = _
      rw [ih2, hsp, List.length_cons]
      push_cast
      ring


/-- Claim C5: for any sequence of pushes of general-purpose registers `as`
immediately followed by as many pops into general-purpose registers `bs`
(register index 7 is `SP` by convention and excluded; the capacity hypotheses
keep every touched stack address inside ram's 0..255 range), the values the
pops load are the pushed register values in reverse order, and `SP` ends
exactly where it started. -/
theorem stack_lifo (s : CPU) (as bs : List Int)
    (hlen : bs.length = as.length)
    (ha : ∀ a ∈ as, a ≠ SP) (hb : ∀ b ∈ bs, b ≠ SP)
    (hcap : (as.length : Int) ≤ s.reg SP) (hsp : s.reg SP ≤ 256) :
    (popSeq (pushSeq s as) bs).2 = (as.map s.reg).reverse
    ∧ (popSeq (pushSeq s as) bs).1.reg SP = s.reg SP := by
  obtain ⟨p2, p1⟩ := popSeq_spec bs (pushSeq s as) hb
  constructor
  · rw [p2, hlen]
    exact pushSeq_stack as s ha
  · rw [p1, hlen, pushSeq_reg_SP]
    ring

/-- Witness for C5: `reg[0] = 11`, `reg[1] = 22`; pushing registers 0 then 1
and popping into registers 2 then 3 yields `[22, 11]` and restores `SP` to
244. -/
theorem stack_lifo_witness :
    (popSeq (pushSeq (handle_ldi (handle_ldi initCPU 0 11) 1 22) [0, 1]) [2, 3]).2
      = [22, 11]
    ∧ (popSeq (pushSeq (handle_ldi (handle_ldi initCPU 0 11) 1 22) [0, 1]) [2, 3]).1.reg SP
      = 244 := by
  have h := stack_lifo (handle_ldi (handle_ldi initCPU 0 11) 1 22) [0, 1] [2, 3]
    rfl (by decide) (by decide) (by decide) (by decide)
  refine ⟨?_, ?_⟩
  · rw [h.1]; decide
  · rw [h.2]; decide

end LS8
